import Mathlib

/-!
Verification of the gyre-flow docking simulation core
(`swimmer.py`, `controller.py`), shallowly embedded in Lean.

Floating-point values are modelled by real numbers; the `np.inf`
initialisation of the stored controller errors is modelled by `EReal`
so that the infinite sentinel is representable.  Exceptions are
modelled by `Except`, with the raising object's state carried in the
error so that statements about mutation-on-failure are expressible.
-/

namespace GyreDocking

/-- A pose `[x, y, theta]`, as stored in the swimmer's history rows. -/
structure Pose where
  x : ℝ
  y : ℝ
  theta : ℝ

instance : Inhabited Pose := ⟨⟨0, 0, 0⟩⟩

/-- A three-component velocity `[xdot, ydot, thetadot]`. -/
abbrev Vel3 := ℝ × ℝ × ℝ

/-- The `vel` argument of `Swimmer.update` may be given with two or three
components (`len(vel) == 2` triggers `np.hstack((vel, 0))`). -/
inductive VelInput where
  | two (vx vy : ℝ)
  | three (vx vy omega : ℝ)

/-- `np.hstack((vel, 0))` for a two-component velocity; identity otherwise. -/
def VelInput.toVel3 : VelInput → Vel3
  | .two vx vy => (vx, vy, 0)
  | .three vx vy w => (vx, vy, w)

/-- The error raised by `Swimmer.update` when the swimmer is exhausted
(`IndexError("Simulation has gone on too long...")`). -/
inductive AgentError where
  | exhausted
deriving DecidableEq, Repr

/-- The `Swimmer` object: step index `life`, fixed `lifespan`, and the
recorded rows `(t, pose)` of `poseHist` (rows `0 .. life`; the remaining
rows of the preallocated numpy array are never read before being written). -/
structure Swimmer where
  life : ℕ
  lifespan : ℕ
  poseHist : List (ℝ × Pose)

/-- `Swimmer.__init__`: `life = 0`, and row 0 of the history holds
timestamp `0` (from `np.zeros`) together with the initial pose. -/
def Swimmer.mk0 (pose : Pose) (lifespan : ℕ) : Swimmer :=
  { life := 0, lifespan := lifespan, poseHist := [(0, pose)] }

/-- The history row indexed by `life`: `poseHist[self.life]`. -/
def Swimmer.lastEntry (s : Swimmer) : ℝ × Pose :=
  s.poseHist.getD s.life (0, default)

/-- `Swimmer.get_pose`: `poseHist[self.life, 1:]`. -/
def Swimmer.get_pose (s : Swimmer) : Pose :=
  s.lastEntry.2

/-- `Swimmer.update`.  Raises (carrying the unmutated object) when
`life >= lifespan - 1`; otherwise Euler-integrates over `dt = t -
poseHist[life, 0]` and appends the new row, incrementing `life`. -/
def Swimmer.update (s : Swimmer) (t : ℝ) (vel : VelInput) (contVel : Vel3) :
    Except (AgentError × Swimmer) Swimmer :=
  if s.lifespan - 1 ≤ s.life then
    .error (.exhausted, s)
  else
    let dt := t - s.lastEntry.1
    let v := vel.toVel3
    let p := s.lastEntry.2
    let newPose : Pose :=
      { x := p.x + (v.1 + contVel.1) * dt
        y := p.y + (v.2.1 + contVel.2.1) * dt
        theta := p.theta + (v.2.2 + contVel.2.2) * dt }
    .ok { life := s.life + 1, lifespan := s.lifespan,
          poseHist := s.poseHist ++ [(t, newPose)] }

/-- Runs a sequence of `update` calls, stopping at the first error. -/
def Swimmer.updateRun (s : Swimmer) : List (ℝ × VelInput × Vel3) →
    Except (AgentError × Swimmer) Swimmer
  | [] => .ok s
  | (t, v, c) :: rest =>
    match s.update t v c with
    | .error e => .error e
    | .ok s' => s'.updateRun rest

/-- The recorded timestamps, in order. -/
def Swimmer.timestamps (s : Swimmer) : List ℝ :=
  s.poseHist.map Prod.fst

/-- Well-formedness of a swimmer's history: the step index addresses the
last recorded row, the recorded rows fit in the preallocated array, and
timestamps strictly increase. -/
def Swimmer.Inv (s : Swimmer) : Prop :=
  s.life + 1 = s.poseHist.length ∧
  s.poseHist.length ≤ s.lifespan ∧
  List.Chain' (fun a b => a < b) s.timestamps

/-- Structural well-formedness of a swimmer's history: the step index
addresses the last recorded row and the recorded rows fit in the
preallocated array.  Unlike `Swimmer.Inv` this says nothing about the
timestamps, so it holds for every agent reachable by construction and
successful updates regardless of the call times used. -/
def Swimmer.WF (s : Swimmer) : Prop :=
  s.life + 1 = s.poseHist.length ∧ s.poseHist.length ≤ s.lifespan

/-- Modelled from the spec: `anglefunctions.wrap_to_pi` (the file
`anglefunctions.py` is not part of the sources given); the spec says it
returns the representative of the angle in `(−π, π]`.  The unique integer
`k` with `a − 2πk ∈ (−π, π]` is `⌈(a − π) / (2π)⌉`. -/
noncomputable def wrap_to_pi (a : ℝ) : ℝ :=
  a - 2 * Real.pi * (⌈(a - Real.pi) / (2 * Real.pi)⌉ : ℤ)

/-- `FlowDirection` enumeration from `controller.py`. -/
inductive FlowDirection where
  | IN
  | OUT
deriving DecidableEq

/-- The `.value` of a `FlowDirection`: `IN = -1`, `OUT = 1`. -/
def FlowDirection.value : FlowDirection → ℝ
  | .IN => -1
  | .OUT => 1

/-- `FlowOrientation` enumeration from `controller.py`. -/
inductive FlowOrientation where
  | CW
  | CCW
deriving DecidableEq

/-- The `.value` of a `FlowOrientation`: `CW = -1`, `CCW = 1`. -/
def FlowOrientation.value : FlowOrientation → ℝ
  | .CW => -1
  | .CCW => 1

/-- Class constant `ApproachController.time_to_convergence = 2` seconds. -/
def time_to_convergence : ℝ := 2

/-- Class constant `ApproachController.convergence_threshold = 0.01`. -/
def convergence_threshold : ℝ := 0.01

/-- The `ApproachController` object.  The flow model is kept abstract as
its phase-state query `get_state : (x, y) ↦ (radius, phase)`, the only
method the controller calls on it.  The stored errors live in `EReal`
because they are initialised to `np.inf`. -/
structure ApproachController where
  Kp : ℝ
  vel_from_thrusters : ℝ
  flow_model : ℝ × ℝ → ℝ × ℝ
  flow_ori : FlowOrientation
  flow_dir : FlowDirection
  convergence_count : ℕ
  convergence_count_threshold : ℝ
  r_diff : EReal
  theta_diff : EReal

/-- `ApproachController.__init__`. -/
noncomputable def mkApproachController (flow_model : ℝ × ℝ → ℝ × ℝ)
    (flow_ori : FlowOrientation) (flow_dir : FlowDirection)
    (time_step : ℝ) : ApproachController :=
  { Kp := 0.5
    vel_from_thrusters := 0.01
    flow_model := flow_model
    flow_ori := flow_ori
    flow_dir := flow_dir
    convergence_count := 0
    convergence_count_threshold := time_to_convergence / time_step
    r_diff := ⊤
    theta_diff := ⊤ }

open Classical in
/-- `ApproachController.get_control_vel`, returning the updated controller
(the method stores `r_diff` and `theta_diff` on `self`) together with the
returned velocity. -/
noncomputable def ApproachController.get_control_vel (c : ApproachController)
    (pos targ : ℝ × ℝ) : ApproachController × Vel3 :=
  let r_mob := (c.flow_model pos).1
  let theta_mob := (c.flow_model pos).2
  let r_targ := (c.flow_model targ).1
  let theta_targ := (c.flow_model targ).2
  let err := wrap_to_pi (theta_targ - theta_mob) * c.flow_ori.value
  let r_des := r_targ + c.Kp * err * c.flow_dir.value
  let dir : ℝ := if r_des > r_mob then 1 else -1
  let control_vel : Vel3 :=
    (dir * c.vel_from_thrusters * Real.cos theta_mob,
     dir * c.vel_from_thrusters * Real.sin theta_mob,
     dir * c.vel_from_thrusters * 0)
  ({ c with r_diff := ((r_targ - r_mob : ℝ) : EReal),
            theta_diff := ((err : ℝ) : EReal) },
   control_vel)

open Classical in
/-- Square root on `EReal`, as `np.sqrt` behaves on the values this program
produces: `sqrt(inf) = inf`, and the real square root on finite values. -/
noncomputable def esqrt (x : EReal) : EReal :=
  if x = ⊤ then ⊤ else ((Real.sqrt x.toReal : ℝ) : EReal)

open Classical in
/-- `ApproachController.evaluate_convergence`, returning the updated
controller (the dwell counter mutates) together with the returned boolean. -/
noncomputable def ApproachController.evaluate_convergence
    (c : ApproachController) : ApproachController × Bool :=
  let total_err := esqrt (c.r_diff ^ 2 + c.theta_diff ^ 2)
  let cnt : ℕ :=
    if total_err ≤ ((convergence_threshold : ℝ) : EReal) then
      c.convergence_count + 1
    else 0
  ({ c with convergence_count := cnt },
   if (cnt : ℝ) ≥ c.convergence_count_threshold then true else false)

/-- One convergence evaluation taken while the stored errors hold the given
(finite) values, as left there by the last `get_control_vel` call. -/
noncomputable def ApproachController.feed (c : ApproachController)
    (r th : ℝ) : ApproachController × Bool :=
  ApproachController.evaluate_convergence
    { c with r_diff := (r : EReal), theta_diff := (th : EReal) }

/-- The controller state and returned boolean after the `n`-th of a run of
consecutive zero-error convergence evaluations (the boolean at `n = 0` is
a placeholder; only `n ≥ 1` is meaningful). -/
noncomputable def zeroFeeds (c : ApproachController) :
    ℕ → ApproachController × Bool
  | 0 => (c, false)
  | n + 1 => (zeroFeeds c n).1.feed 0 0

/-- The spec's `orientation_sign`: `−1` for `CW`, `+1` for `CCW`. -/
def orientation_sign : FlowOrientation → ℝ
  | .CW => -1
  | .CCW => 1

/-- The spec's `direction_sign`: `−1` for `IN`, `+1` for `OUT`. -/
def direction_sign : FlowDirection → ℝ
  | .IN => -1
  | .OUT => 1

/-- The spec's angular error
`err = wrap_to_pi(θ_target − θ_mobile) * orientation_sign`. -/
noncomputable def spec_angular_error (fm : ℝ × ℝ → ℝ × ℝ)
    (ori : FlowOrientation) (pos targ : ℝ × ℝ) : ℝ :=
  wrap_to_pi ((fm targ).2 - (fm pos).2) * orientation_sign ori

/-- The spec's desired radius
`r_des = r_target + Kp * err * direction_sign` with `Kp = 0.5`. -/
noncomputable def spec_desired_radius (fm : ℝ × ℝ → ℝ × ℝ)
    (ori : FlowOrientation) (fdir : FlowDirection) (pos targ : ℝ × ℝ) : ℝ :=
  (fm targ).1 + 0.5 * spec_angular_error fm ori pos targ * direction_sign fdir

open Classical in
/-- The spec's thrust sign: `+1` if `r_des > r_mobile` else `−1`. -/
noncomputable def spec_thrust_sign (fm : ℝ × ℝ → ℝ × ℝ)
    (ori : FlowOrientation) (fdir : FlowDirection) (pos targ : ℝ × ℝ) : ℝ :=
  if spec_desired_radius fm ori fdir pos targ > (fm pos).1 then 1 else -1

/-- Modelled from the spec: `GyreFlow.get_state` for a vortex-family flow
(the file `flowfield.py` is not part of the sources given); the spec says
the phase-state query maps a position to (radius from the configured
center, angle from the configured center), here with center the origin. -/
noncomputable def polar_state (p : ℝ × ℝ) : ℝ × ℝ :=
  (Real.sqrt (p.1 ^ 2 + p.2 ^ 2), Complex.arg ⟨p.1, p.2⟩)

/-! Helper lemmas about `Swimmer`. -/

lemma Swimmer.update_ok (s : Swimmer) (t : ℝ) (vel : VelInput) (contVel : Vel3)
    (h : s.life + 1 < s.lifespan) :
    s.update t vel contVel = .ok
      { life := s.life + 1
        lifespan := s.lifespan
        poseHist := s.poseHist ++ [(t,
          { x := s.lastEntry.2.x +
              ((vel.toVel3).1 + contVel.1) * (t - s.lastEntry.1)
            y := s.lastEntry.2.y +
              ((vel.toVel3).2.1 + contVel.2.1) * (t - s.lastEntry.1)
            theta := s.lastEntry.2.theta +
              ((vel.toVel3).2.2 + contVel.2.2) * (t - s.lastEntry.1) })] } := by
  unfold Swimmer.update
  rw [if_neg (by omega)]

lemma Swimmer.update_error (s : Swimmer) (t : ℝ) (vel : VelInput)
    (contVel : Vel3) (h : s.lifespan - 1 ≤ s.life) :
    s.update t vel contVel = .error (.exhausted, s) := by
  unfold Swimmer.update
  rw [if_pos h]

lemma Swimmer.updateRun_ok (inputs : List (ℝ × VelInput × Vel3)) :
    ∀ s : Swimmer, s.life + inputs.length + 1 ≤ s.lifespan →
      ∃ s', s.updateRun inputs = .ok s' ∧
        s'.life = s.life + inputs.length ∧ s'.lifespan = s.lifespan := by
  induction inputs with
  | nil =>
    intro s h
    exact ⟨s, rfl, by simp, rfl⟩
  | cons hd tl ih =>
    intro s h
    obtain ⟨t, v, cv⟩ := hd
    have hupd := s.update_ok t v cv (by simp at h; omega)
    obtain ⟨s', hrun, hlife, hspan⟩ := ih
      { life := s.life + 1, lifespan := s.lifespan,
        poseHist := s.poseHist ++ [(t,
          { x := s.lastEntry.2.x + ((v.toVel3).1 + cv.1) * (t - s.lastEntry.1)
            y := s.lastEntry.2.y + ((v.toVel3).2.1 + cv.2.1) * (t - s.lastEntry.1)
            theta := s.lastEntry.2.theta +
              ((v.toVel3).2.2 + cv.2.2) * (t - s.lastEntry.1) })] }
      (by simp at h ⊢; omega)
    refine ⟨s', ?_, ?_, hspan⟩
    · unfold Swimmer.updateRun
      rw [hupd]
      exact hrun
    · simp at h hlife ⊢
      omega

/-! The claims about the agent. -/

/-- C3: an agent constructed with `lifespan = N` (for positive `N`)
completes any `N − 1` successive `update` calls without error starting
from the initial pose, and raises `ExhaustedAgentError` on the `N`-th. -/
theorem agent_exhaustion (N : ℕ) (hN : 1 ≤ N) (p : Pose)
    (inputs : List (ℝ × VelInput × Vel3)) (hlen : inputs.length = N - 1) :
    ∃ s', (Swimmer.mk0 p N).updateRun inputs = .ok s' ∧
      ∀ (t : ℝ) (v : VelInput) (cv : Vel3),
        s'.update t v cv = .error (.exhausted, s') := by
  obtain ⟨s', hrun, hlife, hspan⟩ :=
    Swimmer.updateRun_ok inputs (Swimmer.mk0 p N) (by simp [Swimmer.mk0]; omega)
  refine ⟨s', hrun, fun t v cv => s'.update_error t v cv ?_⟩
  simp [Swimmer.mk0] at hlife hspan
  omega

/-- Witness for C3 at `N = 2`. -/
theorem agent_exhaustion_witness :
    ∃ s', (Swimmer.mk0 ⟨0, 0, 0⟩ 2).updateRun
        [(1, .three 0 0 0, (0, 0, 0))] = .ok s' ∧
      ∀ (t : ℝ) (v : VelInput) (cv : Vel3),
        s'.update t v cv = .error (.exhausted, s') :=
  agent_exhaustion 2 (by norm_num) ⟨0, 0, 0⟩ [(1, .three 0 0 0, (0, 0, 0))] rfl

/-- C5: on a non-exhausted agent, `update` computes `dt = t −
last_timestamp`, appends timestamp `t` with pose `last_pose +
(flow_velocity + control_velocity) * dt` to the history, and advances the
step index by one; a two-component flow velocity behaves exactly as the
same velocity with a zero third component. -/
theorem advance_euler_step (s : Swimmer) (t : ℝ) (vel : VelInput)
    (contVel : Vel3) (a b : ℝ) (h : s.life + 1 < s.lifespan) :
    s.update t vel contVel = .ok
      { life := s.life + 1
        lifespan := s.lifespan
        poseHist := s.poseHist ++ [(t,
          { x := s.get_pose.x +
              ((vel.toVel3).1 + contVel.1) * (t - s.lastEntry.1)
            y := s.get_pose.y +
              ((vel.toVel3).2.1 + contVel.2.1) * (t - s.lastEntry.1)
            theta := s.get_pose.theta +
              ((vel.toVel3).2.2 + contVel.2.2) * (t - s.lastEntry.1) })] } ∧
    s.update t (.two a b) contVel = s.update t (.three a b 0) contVel := by
  exact ⟨s.update_ok t vel contVel h, rfl⟩

/-- Witness for C5, checking a concrete two-component update. -/
theorem advance_euler_step_witness :
    (Swimmer.mk0 ⟨0, 0, 0⟩ 3).update 1 (.two 2 3) (0, 0, 0) =
      (Swimmer.mk0 ⟨0, 0, 0⟩ 3).update 1 (.three 2 3 0) (0, 0, 0) :=
  (advance_euler_step (Swimmer.mk0 ⟨0, 0, 0⟩ 3) 1 (.two 2 3) (0, 0, 0) 2 3
    (by simp [Swimmer.mk0])).2

/-- C8: calling `update` on an exhausted swimmer (`life ≥ lifespan − 1`)
raises `ExhaustedAgentError`, and the state the raising object carries is
exactly the pre-call state: the step index and the pose history are
untouched. -/
theorem exhausted_update_no_mutation (s : Swimmer) (t : ℝ) (vel : VelInput)
    (contVel : Vel3) (h : s.lifespan - 1 ≤ s.life) :
    s.update t vel contVel = .error (.exhausted, s) :=
  s.update_error t vel contVel h

/-- Witness for C8 at `lifespan = 1`. -/
theorem exhausted_update_no_mutation_witness :
    (Swimmer.mk0 ⟨0, 0, 0⟩ 1).update 5 (.three 1 2 3) (0, 0, 0) =
      .error (.exhausted, Swimmer.mk0 ⟨0, 0, 0⟩ 1) :=
  exhausted_update_no_mutation (Swimmer.mk0 ⟨0, 0, 0⟩ 1) 5 (.three 1 2 3)
    (0, 0, 0) (by simp [Swimmer.mk0])

lemma timestamps_getLast (s : Swimmer) (h : s.life + 1 = s.poseHist.length) :
    s.timestamps.getLast? = some s.lastEntry.1 := by
  have hne : s.timestamps ≠ [] := by
    simp only [Swimmer.timestamps, ne_eq, List.map_eq_nil_iff]
    intro hnil
    rw [hnil] at h
    simp at h
  rw [List.getLast?_eq_getLast_of_ne_nil hne]
  congr 1
  rw [List.getLast_eq_getElem]
  have hlen : s.timestamps.length = s.poseHist.length := by
    simp [Swimmer.timestamps]
  have hlt : s.life < s.poseHist.length := by omega
  simp only [Swimmer.timestamps, Swimmer.lastEntry,
    List.getD_eq_getElem _ _ hlt, List.getElem_map, List.length_map]
  congr 2
  omega

/-- C6 counterexample: a successful `update` whose call time `0` does not
exceed the last recorded timestamp `0` appends a duplicate timestamp, so
the recorded timestamps of an agent are not strictly increasing for every
sequence of successful `update` calls. -/
theorem history_timestamps_counterexample :
    (Swimmer.mk0 ⟨0, 0, 0⟩ 3).update 0 (.three 0 0 0) (0, 0, 0) = .ok
      { life := 1, lifespan := 3,
        poseHist := [(0, ⟨0, 0, 0⟩), (0, ⟨0, 0, 0⟩)] } ∧
    ¬ List.Chain' (fun a b => a < b)
      (Swimmer.timestamps
        { life := 1, lifespan := 3,
          poseHist := [(0, ⟨0, 0, 0⟩), (0, ⟨0, 0, 0⟩)] }) := by
  constructor
  · rw [(Swimmer.mk0 ⟨0, 0, 0⟩ 3).update_ok 0 (.three 0 0 0) (0, 0, 0)
      (by simp [Swimmer.mk0])]
    simp [Swimmer.mk0, Swimmer.lastEntry, VelInput.toVel3]
  · simp [Swimmer.timestamps, List.chain'_cons]

/-- C6 (amended): a fresh agent's history is well formed; a successful
`update` preserves structural well-formedness and keeps the history
length within the lifespan fixed at construction, for every agent whose
step index addresses its last recorded row — regardless of the recorded
timestamps; when additionally the call time exceeds the last recorded
timestamp, the strictly-increasing-timestamps invariant is preserved as
well; and an `update` on a full history is a fatal error carrying the
unmodified state, never a silent wrap or overwrite — again regardless of
the recorded timestamps. -/
theorem history_invariants :
    (∀ (p : Pose) (N : ℕ), 1 ≤ N → (Swimmer.mk0 p N).Inv) ∧
    (∀ (s : Swimmer) (t : ℝ) (v : VelInput) (cv : Vel3) (s' : Swimmer),
      s.WF → s.update t v cv = .ok s' →
        s'.WF ∧ s'.poseHist.length ≤ s.lifespan) ∧
    (∀ (s : Swimmer) (t : ℝ) (v : VelInput) (cv : Vel3) (s' : Swimmer),
      s.Inv → s.update t v cv = .ok s' → s.lastEntry.1 < t → s'.Inv) ∧
    (∀ (s : Swimmer) (t : ℝ) (v : VelInput) (cv : Vel3),
      s.WF → s.poseHist.length = s.lifespan →
        s.update t v cv = .error (.exhausted, s)) := by
  refine ⟨?_, ?_, ?_, ?_⟩
  · intro p N hN
    refine ⟨rfl, by simpa [Swimmer.mk0], ?_⟩
    simp [Swimmer.mk0, Swimmer.timestamps]
  · intro s t v cv s' hWF hok
    obtain ⟨hidx, hbound⟩ := hWF
    have hguard : ¬ (s.lifespan - 1 ≤ s.life) := by
      intro hg
      rw [s.update_error t v cv hg] at hok
      exact absurd hok (by simp)
    rw [s.update_ok t v cv (by omega)] at hok
    obtain rfl : s' = _ := (Except.ok.injEq _ _).mp hok.symm
    exact ⟨⟨by simp; omega, by simp; omega⟩, by simp; omega⟩
  · intro s t v cv s' hInv hok ht
    obtain ⟨hidx, hbound, hchain⟩ := hInv
    have hguard : ¬ (s.lifespan - 1 ≤ s.life) := by
      intro hg
      rw [s.update_error t v cv hg] at hok
      exact absurd hok (by simp)
    rw [s.update_ok t v cv (by omega)] at hok
    obtain rfl : s' = _ := (Except.ok.injEq _ _).mp hok.symm
    refine ⟨by simp; omega, by simp; omega, ?_⟩
    have hts : Swimmer.timestamps
        { life := s.life + 1, lifespan := s.lifespan,
          poseHist := s.poseHist ++ [(t,
            { x := s.lastEntry.2.x + ((v.toVel3).1 + cv.1) * (t - s.lastEntry.1)
              y := s.lastEntry.2.y + ((v.toVel3).2.1 + cv.2.1) * (t - s.lastEntry.1)
              theta := s.lastEntry.2.theta +
                ((v.toVel3).2.2 + cv.2.2) * (t - s.lastEntry.1) })] } =
        s.timestamps ++ [t] := by
      simp [Swimmer.timestamps]
    rw [hts, List.chain'_append]
    refine ⟨hchain, List.chain'_singleton t, ?_⟩
    intro x hx y hy
    rw [timestamps_getLast s hidx] at hx
    simp at hx hy
    rw [← hx, ← hy]
    exact ht
  · intro s t v cv hWF hfull
    obtain ⟨hidx, _⟩ := hWF
    exact s.update_error t v cv (by omega)

/-- Witness for the amended C6: a fresh agent; a successful update from a
state with duplicated timestamps (as reached by a non-increasing-time
update) that still keeps the length bound; an increasing-time update that
preserves the full invariant; and a fatal error on a full history that
also has duplicated timestamps. -/
theorem history_invariants_witness :
    (Swimmer.mk0 ⟨0, 0, 0⟩ 2).Inv ∧
    (({ life := 2, lifespan := 3,
        poseHist := [((0 : ℝ), (⟨0, 0, 0⟩ : Pose)), (0, ⟨0, 0, 0⟩),
          (2, ⟨0, 0, 0⟩)] } : Swimmer).WF ∧
      ({ life := 2, lifespan := 3,
         poseHist := [((0 : ℝ), (⟨0, 0, 0⟩ : Pose)), (0, ⟨0, 0, 0⟩),
           (2, ⟨0, 0, 0⟩)] } : Swimmer).poseHist.length ≤
        ({ life := 1, lifespan := 3,
           poseHist := [((0 : ℝ), (⟨0, 0, 0⟩ : Pose)), (0, ⟨0, 0, 0⟩)] } :
             Swimmer).lifespan) ∧
    ((Swimmer.mk0 ⟨0, 0, 0⟩ 3).lastEntry.1 < 1 →
      ({ life := 1, lifespan := 3,
         poseHist := [((0 : ℝ), (⟨0, 0, 0⟩ : Pose)), (1, ⟨0, 0, 0⟩)] } :
           Swimmer).Inv) ∧
    ({ life := 1, lifespan := 2,
       poseHist := [((0 : ℝ), (⟨0, 0, 0⟩ : Pose)), (0, ⟨0, 0, 0⟩)] } :
         Swimmer).update 9 (.three 0 0 0) (0, 0, 0) =
      .error (.exhausted,
        { life := 1, lifespan := 2,
          poseHist := [((0 : ℝ), (⟨0, 0, 0⟩ : Pose)), (0, ⟨0, 0, 0⟩)] }) := by
  have hok2 : ({ life := 1, lifespan := 3,
                 poseHist := [((0 : ℝ), (⟨0, 0, 0⟩ : Pose)),
                   (0, ⟨0, 0, 0⟩)] } :
        Swimmer).update 2 (.three 0 0 0) (0, 0, 0) = .ok
      { life := 2, lifespan := 3,
        poseHist := [((0 : ℝ), (⟨0, 0, 0⟩ : Pose)), (0, ⟨0, 0, 0⟩),
          (2, ⟨0, 0, 0⟩)] } := by
    rw [Swimmer.update_ok ({ life := 1, lifespan := 3,
                             poseHist := [((0 : ℝ), (⟨0, 0, 0⟩ : Pose)),
                               (0, ⟨0, 0, 0⟩)] } :
        Swimmer) 2 (.three 0 0 0) (0, 0, 0) (by norm_num)]
    simp [Swimmer.lastEntry, VelInput.toVel3]
  have hok3 : (Swimmer.mk0 ⟨0, 0, 0⟩ 3).update 1 (.three 0 0 0) (0, 0, 0) = .ok
      { life := 1, lifespan := 3,
        poseHist := [((0 : ℝ), (⟨0, 0, 0⟩ : Pose)), (1, ⟨0, 0, 0⟩)] } := by
    rw [(Swimmer.mk0 ⟨0, 0, 0⟩ 3).update_ok 1 (.three 0 0 0) (0, 0, 0)
      (by simp [Swimmer.mk0])]
    simp [Swimmer.mk0, Swimmer.lastEntry, VelInput.toVel3]
  refine ⟨history_invariants.1 ⟨0, 0, 0⟩ 2 (by norm_num),
    history_invariants.2.1 _ 2 (.three 0 0 0) (0, 0, 0) _
      ⟨rfl, by norm_num⟩ hok2,
    fun hlt => history_invariants.2.2.1 (Swimmer.mk0 ⟨0, 0, 0⟩ 3) 1
      (.three 0 0 0) (0, 0, 0) _
      (history_invariants.1 ⟨0, 0, 0⟩ 3 (by norm_num)) hok3 hlt,
    history_invariants.2.2.2 _ 9 (.three 0 0 0) (0, 0, 0)
      ⟨rfl, by norm_num⟩ rfl⟩

/-! Helper lemmas about `ApproachController`. -/

open Classical in
lemma get_control_vel_eq (c : ApproachController) (pos targ : ℝ × ℝ) :
    c.get_control_vel pos targ =
      ({ c with
          r_diff := (((c.flow_model targ).1 - (c.flow_model pos).1 : ℝ) : EReal)
          theta_diff := ((wrap_to_pi ((c.flow_model targ).2 - (c.flow_model pos).2) *
            c.flow_ori.value : ℝ) : EReal) },
       ((if (c.flow_model targ).1 + c.Kp *
            (wrap_to_pi ((c.flow_model targ).2 - (c.flow_model pos).2) *
              c.flow_ori.value) * c.flow_dir.value > (c.flow_model pos).1
          then (1 : ℝ) else -1) * c.vel_from_thrusters *
            Real.cos ((c.flow_model pos).2),
        (if (c.flow_model targ).1 + c.Kp *
            (wrap_to_pi ((c.flow_model targ).2 - (c.flow_model pos).2) *
              c.flow_ori.value) * c.flow_dir.value > (c.flow_model pos).1
          then (1 : ℝ) else -1) * c.vel_from_thrusters *
            Real.sin ((c.flow_model pos).2),
        (if (c.flow_model targ).1 + c.Kp *
            (wrap_to_pi ((c.flow_model targ).2 - (c.flow_model pos).2) *
              c.flow_ori.value) * c.flow_dir.value > (c.flow_model pos).1
          then (1 : ℝ) else -1) * c.vel_from_thrusters * 0)) := rfl

lemma value_eq_orientation_sign (o : FlowOrientation) :
    o.value = orientation_sign o := by
  cases o <;> rfl

lemma value_eq_direction_sign (d : FlowDirection) :
    d.value = direction_sign d := by
  cases d <;> rfl

lemma get_control_vel_mk_vel (fm : ℝ × ℝ → ℝ × ℝ) (ori : FlowOrientation)
    (fdir : FlowDirection) (ts : ℝ) (pos targ : ℝ × ℝ) :
    ((mkApproachController fm ori fdir ts).get_control_vel pos targ).2 =
      (spec_thrust_sign fm ori fdir pos targ * 0.01 * Real.cos ((fm pos).2),
       spec_thrust_sign fm ori fdir pos targ * 0.01 * Real.sin ((fm pos).2),
       0) := by
  rw [get_control_vel_eq]
  unfold spec_thrust_sign spec_desired_radius spec_angular_error
  rw [value_eq_orientation_sign, value_eq_direction_sign]
  simp only [mkApproachController]
  norm_num

/-- C2: the control law of `get_control_vel` on a freshly constructed
controller: angular error `err = wrap_to_pi(θ_targ − θ_mob) *
orientation_sign` (`CW = −1`, `CCW = +1`), desired radius `r_des = r_targ
+ Kp * err * direction_sign` (`IN = −1`, `OUT = +1`), bang-bang thrust
sign `+1` iff `r_des > r_mob`, with fixed gain `Kp = 0.5` and fixed
thruster speed `0.01`.  The error is observable in the stored
`theta_diff`, the thrust sign and speed in the returned velocity. -/
theorem control_law_formulas (fm : ℝ × ℝ → ℝ × ℝ) (ori : FlowOrientation)
    (fdir : FlowDirection) (ts : ℝ) (pos targ : ℝ × ℝ) :
    (mkApproachController fm ori fdir ts).Kp = 0.5 ∧
    (mkApproachController fm ori fdir ts).vel_from_thrusters = 0.01 ∧
    ((mkApproachController fm ori fdir ts).get_control_vel pos targ).1.theta_diff
      = ((spec_angular_error fm ori pos targ : ℝ) : EReal) ∧
    ((mkApproachController fm ori fdir ts).get_control_vel pos targ).2 =
      (spec_thrust_sign fm ori fdir pos targ * 0.01 * Real.cos ((fm pos).2),
       spec_thrust_sign fm ori fdir pos targ * 0.01 * Real.sin ((fm pos).2),
       0) := by
  refine ⟨rfl, rfl, ?_, get_control_vel_mk_vel fm ori fdir ts pos targ⟩
  rw [get_control_vel_eq]
  unfold spec_angular_error
  rw [value_eq_orientation_sign]
  rfl

/-- C1 counterexample: with the polar phase-state map, a mobile agent at
position `(1, 0)` whose pose heading is `π/2` and a target at `(1, 0)`,
the returned control velocity is not `thrust_sign * speed *
(cos θ_heading, sin θ_heading, 0)`: its x-component is `−0.01` while the
claim's heading-directed vector has x-component `0`. -/
theorem heading_claim_counterexample :
    ((mkApproachController polar_state .CCW .OUT 0.1).get_control_vel
        (1, 0) (1, 0)).2 ≠
      (spec_thrust_sign polar_state .CCW .OUT (1, 0) (1, 0) * 0.01 *
         Real.cos (Real.pi / 2),
       spec_thrust_sign polar_state .CCW .OUT (1, 0) (1, 0) * 0.01 *
         Real.sin (Real.pi / 2),
       0) := by
  have hps : polar_state (1, 0) = (1, 0) := by
    unfold polar_state
    norm_num
    have hone : (⟨1, 0⟩ : ℂ) = 1 := Complex.ext (by simp) (by simp)
    rw [hone]
    exact Complex.arg_one
  have hw : wrap_to_pi 0 = 0 := by
    unfold wrap_to_pi
    have hd : (0 - Real.pi) / (2 * Real.pi) = -(1 / 2) := by
      field_simp [Real.pi_ne_zero]
      ring
    rw [hd, show ⌈(-(1 / 2) : ℝ)⌉ = 0 from by
      rw [Int.ceil_eq_zero_iff]
      constructor <;> norm_num]
    norm_num
  intro h
  have h1 := congrArg Prod.fst h
  rw [get_control_vel_eq] at h1
  simp only [mkApproachController, hps] at h1
  rw [Real.cos_pi_div_two] at h1
  norm_num [hw, Real.cos_zero] at h1

/-- C1 (amended): the control velocity returned by `get_control_vel` is a
fixed-magnitude thrust directed along the phase angle returned by the flow
field's phase-state query at the mobile position (not along the mobile
agent's pose heading, which the controller never reads):
`control_vel = thrust_sign * speed * (cos θ_phase, sin θ_phase, 0)`. -/
theorem thrust_along_phase_angle (fm : ℝ × ℝ → ℝ × ℝ) (ori : FlowOrientation)
    (fdir : FlowDirection) (ts : ℝ) (pos targ : ℝ × ℝ) :
    ((mkApproachController fm ori fdir ts).get_control_vel pos targ).2 =
      (spec_thrust_sign fm ori fdir pos targ * 0.01 * Real.cos ((fm pos).2),
       spec_thrust_sign fm ori fdir pos targ * 0.01 * Real.sin ((fm pos).2),
       0) :=
  get_control_vel_mk_vel fm ori fdir ts pos targ

/-- C9: `get_control_vel` mutates only the stored `r_diff` and
`theta_diff` (set to the radius error and the angular error); the gain,
thruster speed, flow model, orientation, direction, dwell counter and its
threshold are all unchanged. -/
theorem get_control_vel_frame (c : ApproachController) (pos targ : ℝ × ℝ) :
    ((c.get_control_vel pos targ).1.Kp = c.Kp ∧
     (c.get_control_vel pos targ).1.vel_from_thrusters = c.vel_from_thrusters ∧
     (c.get_control_vel pos targ).1.flow_model = c.flow_model ∧
     (c.get_control_vel pos targ).1.flow_ori = c.flow_ori ∧
     (c.get_control_vel pos targ).1.flow_dir = c.flow_dir ∧
     (c.get_control_vel pos targ).1.convergence_count = c.convergence_count ∧
     (c.get_control_vel pos targ).1.convergence_count_threshold =
       c.convergence_count_threshold) ∧
    (c.get_control_vel pos targ).1.r_diff =
      (((c.flow_model targ).1 - (c.flow_model pos).1 : ℝ) : EReal) ∧
    (c.get_control_vel pos targ).1.theta_diff =
      ((wrap_to_pi ((c.flow_model targ).2 - (c.flow_model pos).2) *
        c.flow_ori.value : ℝ) : EReal) :=
  ⟨⟨rfl, rfl, rfl, rfl, rfl, rfl, rfl⟩, rfl, rfl⟩

/-- C10: the returned control velocity always has third component `0` and
planar Euclidean norm exactly the thruster speed `0.01`; in particular it
is never the zero vector. -/
theorem control_vel_magnitude (fm : ℝ × ℝ → ℝ × ℝ) (ori : FlowOrientation)
    (fdir : FlowDirection) (ts : ℝ) (pos targ : ℝ × ℝ) :
    ((mkApproachController fm ori fdir ts).get_control_vel pos targ).2.2.2
      = 0 ∧
    Real.sqrt
      (((mkApproachController fm ori fdir ts).get_control_vel pos targ).2.1 ^ 2 +
       ((mkApproachController fm ori fdir ts).get_control_vel pos targ).2.2.1 ^ 2)
      = 0.01 ∧
    ((mkApproachController fm ori fdir ts).get_control_vel pos targ).2 ≠
      ((0, 0, 0) : Vel3) := by
  rw [get_control_vel_mk_vel]
  have hs2 : spec_thrust_sign fm ori fdir pos targ ^ 2 = 1 := by
    unfold spec_thrust_sign
    split <;> norm_num
  have hcs : Real.cos ((fm pos).2) ^ 2 + Real.sin ((fm pos).2) ^ 2 = 1 := by
    rw [add_comm]
    exact Real.sin_sq_add_cos_sq ((fm pos).2)
  have hnorm :
      Real.sqrt
        ((spec_thrust_sign fm ori fdir pos targ * 0.01 *
            Real.cos ((fm pos).2)) ^ 2 +
         (spec_thrust_sign fm ori fdir pos targ * 0.01 *
            Real.sin ((fm pos).2)) ^ 2) = 0.01 := by
    have h1 : (spec_thrust_sign fm ori fdir pos targ * 0.01 *
          Real.cos ((fm pos).2)) ^ 2 +
        (spec_thrust_sign fm ori fdir pos targ * 0.01 *
          Real.sin ((fm pos).2)) ^ 2 =
        spec_thrust_sign fm ori fdir pos targ ^ 2 * 0.01 ^ 2 *
          (Real.cos ((fm pos).2) ^ 2 + Real.sin ((fm pos).2) ^ 2) := by
      ring
    rw [h1, hs2, hcs, one_mul, mul_one]
    exact Real.sqrt_sq (by norm_num)
  refine ⟨by simp, hnorm, ?_⟩
  intro h
  rw [Prod.ext_iff] at h
  obtain ⟨hx, hrest⟩ := h
  rw [Prod.ext_iff] at hrest
  obtain ⟨hy, _⟩ := hrest
  simp only [] at hx hy
  rw [hx, hy] at hnorm
  norm_num at hnorm

lemma esqrt_top : esqrt ⊤ = ⊤ := by
  unfold esqrt
  rw [if_pos rfl]

lemma esqrt_coe (x : ℝ) : esqrt ((x : ℝ) : EReal) = ((Real.sqrt x : ℝ) : EReal) := by
  unfold esqrt
  rw [if_neg (EReal.coe_ne_top x), EReal.toReal_coe]

/-- C7: a freshly constructed controller (with a positive timestep) has
both stored errors initialised to infinity, and `evaluate_convergence`
returns `false` before any `get_control_vel` call has run. -/
theorem fresh_controller_not_converged (fm : ℝ × ℝ → ℝ × ℝ)
    (ori : FlowOrientation) (fdir : FlowDirection) (ts : ℝ) (hts : 0 < ts) :
    (mkApproachController fm ori fdir ts).r_diff = ⊤ ∧
    (mkApproachController fm ori fdir ts).theta_diff = ⊤ ∧
    ((mkApproachController fm ori fdir ts).evaluate_convergence).2 = false := by
  refine ⟨rfl, rfl, ?_⟩
  unfold ApproachController.evaluate_convergence
  have htop : ((⊤ : EReal) ^ 2 + (⊤ : EReal) ^ 2 : EReal) = ⊤ := by
    rw [sq, EReal.top_mul_top, EReal.top_add_top]
  simp only [mkApproachController]
  rw [htop, esqrt_top]
  have hc1 : ¬ ((⊤ : EReal) ≤ ((convergence_threshold : ℝ) : EReal)) := by
    rw [top_le_iff]
    exact fun h => EReal.coe_ne_top _ h
  simp only [if_neg hc1]
  have hpos : (0 : ℝ) < time_to_convergence / ts := by
    unfold time_to_convergence
    positivity
  rw [if_neg (by push_cast; linarith)]

/-- Witness for C7 at timestep `0.1`. -/
theorem fresh_controller_not_converged_witness :
    (mkApproachController (fun p => p) .CCW .OUT 0.1).r_diff = ⊤ ∧
    (mkApproachController (fun p => p) .CCW .OUT 0.1).theta_diff = ⊤ ∧
    ((mkApproachController (fun p => p) .CCW .OUT 0.1).evaluate_convergence).2
      = false :=
  fresh_controller_not_converged (fun p => p) .CCW .OUT 0.1 (by norm_num)

/-! Helper lemmas for the convergence dwell. -/

lemma feed_eq (c : ApproachController) (r th : ℝ) :
    c.feed r th =
      ({ c with
          convergence_count :=
            if Real.sqrt (r ^ 2 + th ^ 2) ≤ convergence_threshold then
              c.convergence_count + 1
            else 0
          r_diff := (r : EReal)
          theta_diff := (th : EReal) },
       if (((if Real.sqrt (r ^ 2 + th ^ 2) ≤ convergence_threshold then
              c.convergence_count + 1
            else 0 : ℕ)) : ℝ) ≥ c.convergence_count_threshold then true
       else false) := by
  unfold ApproachController.feed ApproachController.evaluate_convergence
  have hsum : (((r : ℝ) : EReal) ^ 2 + ((th : ℝ) : EReal) ^ 2 : EReal) =
      ((r ^ 2 + th ^ 2 : ℝ) : EReal) := by
    rw [sq, sq, ← EReal.coe_mul, ← EReal.coe_mul, ← EReal.coe_add]
    congr 1
    ring
  simp only [hsum, esqrt_coe]
  have hcond : (((Real.sqrt (r ^ 2 + th ^ 2) : ℝ) : EReal) ≤
      ((convergence_threshold : ℝ) : EReal)) ↔
      Real.sqrt (r ^ 2 + th ^ 2) ≤ convergence_threshold :=
    EReal.coe_le_coe_iff
  simp only [ge_iff_le]
  congr 1 <;> [skip; rw [Bool.eq_iff_iff]] <;> simp [hcond]

lemma feed_zero (c : ApproachController) :
    c.feed 0 0 =
      ({ c with
          convergence_count := c.convergence_count + 1
          r_diff := ((0 : ℝ) : EReal)
          theta_diff := ((0 : ℝ) : EReal) },
       if ((c.convergence_count + 1 : ℕ) : ℝ) ≥ c.convergence_count_threshold
         then true else false) := by
  rw [feed_eq]
  have h0 : Real.sqrt ((0 : ℝ) ^ 2 + (0 : ℝ) ^ 2) ≤ convergence_threshold := by
    norm_num [convergence_threshold]
  rw [if_pos h0]

lemma zeroFeeds_state (c : ApproachController) (n : ℕ) :
    (zeroFeeds c n).1.convergence_count = c.convergence_count + n ∧
    (zeroFeeds c n).1.convergence_count_threshold =
      c.convergence_count_threshold := by
  induction n with
  | zero => exact ⟨rfl, rfl⟩
  | succ m ih =>
    unfold zeroFeeds
    rw [feed_zero]
    exact ⟨by simp [ih.1]; omega, by simp [ih.2]⟩

lemma zeroFeeds_bool (c : ApproachController) (n : ℕ) :
    (zeroFeeds c (n + 1)).2 =
      if ((c.convergence_count + n + 1 : ℕ) : ℝ) ≥
          c.convergence_count_threshold then true
      else false := by
  have hst := zeroFeeds_state c n
  show ((zeroFeeds c n).1.feed 0 0).2 = _
  rw [feed_zero]
  simp only [hst.1, hst.2]

lemma zero_dwell (c : ApproachController)
    (hth : c.convergence_count_threshold = 20)
    (hcnt : c.convergence_count = 0) :
    (∀ k, 1 ≤ k → k ≤ 19 → (zeroFeeds c k).2 = false) ∧
    (zeroFeeds c 20).2 = true := by
  constructor
  · intro k hk1 hk19
    obtain ⟨m, rfl⟩ : ∃ m, k = m + 1 := ⟨k - 1, by omega⟩
    rw [zeroFeeds_bool, hth, hcnt]
    rw [if_neg]
    have hm : ¬ (20 ≤ 0 + m + 1) := by omega
    intro hc
    exact hm (by exact_mod_cast hc)
  · have h20 : (20 : ℕ) = 19 + 1 := by norm_num
    rw [h20, zeroFeeds_bool, hth, hcnt]
    rw [if_pos]
    have : (20 : ℕ) ≤ 0 + 19 + 1 := by norm_num
    exact_mod_cast this

lemma feed_unit_error (d : ApproachController) (r th : ℝ)
    (hsum : Real.sqrt (r ^ 2 + th ^ 2) = 1) :
    (d.feed r th).1.convergence_count = 0 ∧
    (d.feed r th).1.convergence_count_threshold =
      d.convergence_count_threshold ∧
    (d.feed r th).2 =
      (if ((0 : ℕ) : ℝ) ≥ d.convergence_count_threshold then true
       else false) := by
  rw [feed_eq]
  have hgt : ¬ (Real.sqrt (r ^ 2 + th ^ 2) ≤ convergence_threshold) := by
    rw [hsum]
    norm_num [convergence_threshold]
  simp only [if_neg hgt]
  simp

/-- C4: for a controller with `convergence_threshold = 0.01` and dwell
threshold `20` (i.e. `timestep = 0.1`), starting from a fresh dwell
counter, `20` consecutive evaluations with `total_error = 0` make
`evaluate_convergence` return `true` on the 20th and `false` on every
earlier one; a single intervening evaluation with `total_error =
sqrt(r_err² + θ_err²) = 1.0` resets the counter so that `20` more
consecutive zero-error evaluations are again required. -/
theorem convergence_dwell (c : ApproachController)
    (hth : c.convergence_count_threshold = 20)
    (hcnt : c.convergence_count = 0) :
    (∀ k, 1 ≤ k → k ≤ 19 → (zeroFeeds c k).2 = false) ∧
    (zeroFeeds c 20).2 = true ∧
    (∀ (d : ApproachController) (r th : ℝ),
      d.convergence_count_threshold = 20 →
      Real.sqrt (r ^ 2 + th ^ 2) = 1 →
        (d.feed r th).1.convergence_count = 0 ∧
        (d.feed r th).2 = false ∧
        (∀ k, 1 ≤ k → k ≤ 19 → (zeroFeeds (d.feed r th).1 k).2 = false) ∧
        (zeroFeeds (d.feed r th).1 20).2 = true) := by
  refine ⟨(zero_dwell c hth hcnt).1, (zero_dwell c hth hcnt).2, ?_⟩
  intro d r th hdth hsum
  obtain ⟨hc0, hcth, hbool⟩ := feed_unit_error d r th hsum
  have hdwell := zero_dwell (d.feed r th).1 (by rw [hcth, hdth]) hc0
  refine ⟨hc0, ?_, hdwell.1, hdwell.2⟩
  rw [hbool, hdth]
  rw [if_neg]
  norm_num

/-- Witness for C4 on a freshly constructed controller with
`timestep = 0.1`, whose dwell threshold is `2 / 0.1 = 20`. -/
theorem convergence_dwell_witness :
    (zeroFeeds (mkApproachController (fun p => p) .CCW .OUT 0.1) 20).2
      = true :=
  (convergence_dwell (mkApproachController (fun p => p) .CCW .OUT 0.1)
    (by unfold mkApproachController time_to_convergence; norm_num)
    rfl).2.1

end GyreDocking
